import Mathlib

/-!
Verification of the xclim core against its specification.

The climate-index code operates on 1-D time series per spatial point; an
`xarray.DataArray` sliced along `time` is embedded as a Lean `List`.  Boolean
exceedance masks become `List Bool`, numeric series become `List ℚ`, and the
floating-point missing value `NaN` becomes `none : Option _`.  Resampling into
periods is embedded as a list of segment lengths partitioning the time axis.
-/

namespace Xclim

/-- The constant `K2C = 273.15` from `xclim/indices.py`. -/
def K2C : ℚ := mkRat 27315 100

/-! ### Run-length statistics (`xclim.run_length`)

The module `run_length` itself is not part of the sources; only its callers
(`CFD2`, `CSI`, `HWI`) are.  Its two operations are therefore modelled from the
spec. -/

/-- Left-to-right scan collecting the lengths of the maximal runs of `true`;
`cur` is the length of the currently open run.
Modelled from the spec: `run_length` / RunLengthAnalyzer is absent from the
sources; §4.1 specifies a single left-to-right scan producing the ordered
sequence of maximal runs of `True`. -/
def runLengthsAux : List Bool → ℕ → List ℕ
  | [], cur => if cur = 0 then [] else [cur]
  | b :: rest, cur =>
      if b then runLengthsAux rest (cur + 1)
      else if cur = 0 then runLengthsAux rest 0 else cur :: runLengthsAux rest 0

/-- The ordered list of lengths of the maximal runs of `true` in a boolean
sequence. -/
def runLengths (s : List Bool) : List ℕ := runLengthsAux s 0

/-- Modelled from the spec: `rl.longest_run` is absent from the sources; §4.2
specifies the length of the run with maximum length, or `0` if no runs exist. -/
def longest_run (s : List Bool) : ℕ := (runLengths s).foldr max 0

/-- Modelled from the spec: `rl.windowed_run_count` is absent from the sources;
§4.2 specifies `run_day_count(window)` as the sum of the lengths of the runs
whose length is at least `window`. -/
def windowed_run_count (window : ℕ) (s : List Bool) : ℕ :=
  (((runLengths s).filter (fun r => window ≤ r)).foldr (· + ·) 0)

/-- Modelled from the spec: the `run_length` module is absent from the
sources; §4.2 takes a qualifying threshold `window ≥ 1` and declares
`window ≤ 0` an input-contract violation, and §7 requires such violations to
be rejected immediately and surfaced to the caller, never silently coerced. -/
def run_day_count (window : ℤ) (s : List Bool) : Except String ℕ :=
  if window ≤ 0 then .error "window must be at least 1"
  else .ok (windowed_run_count window.toNat s)

lemma runLengthsAux_sum (s : List Bool) :
    ∀ cur : ℕ, (runLengthsAux s cur).sum = cur + s.count true := by
  induction s with
  | nil => intro cur; by_cases h : cur = 0 <;> simp [runLengthsAux, h]
  | cons b rest ih =>
      intro cur
      cases b with
      | true => simp [runLengthsAux, ih, List.count_cons]; omega
      | false =>
          by_cases h : cur = 0 <;>
            simp [runLengthsAux, h, ih, List.count_cons]

lemma runLengthsAux_pos (s : List Bool) :
    ∀ cur : ℕ, ∀ x ∈ runLengthsAux s cur, 0 < x := by
  induction s with
  | nil =>
      intro cur x hx
      by_cases h : cur = 0 <;> simp [runLengthsAux, h] at hx
      omega
  | cons b rest ih =>
      intro cur x hx
      cases b with
      | true => exact ih (cur + 1) x hx
      | false =>
          by_cases h : cur = 0
          · exact ih 0 x (by simpa [runLengthsAux, h] using hx)
          · simp [runLengthsAux, h] at hx
            rcases hx with rfl | hx
            · omega
            · exact ih 0 x hx

lemma runLengthsAux_all_true (s : List Bool) (hs : ∀ b ∈ s, b = true) :
    ∀ cur : ℕ, 0 < cur + s.length → runLengthsAux s cur = [cur + s.length] := by
  induction s with
  | nil => intro cur h; simp at h; simp [runLengthsAux, Nat.pos_iff_ne_zero.mp h]
  | cons b rest ih =>
      intro cur h
      have hb : b = true := hs b (by simp)
      subst hb
      have := ih (fun x hx => hs x (by simp [hx])) (cur + 1) (by omega)
      simp [runLengthsAux, this]
      omega

lemma foldr_max_le {l : List ℕ} {n : ℕ} (h : ∀ x ∈ l, x ≤ n) :
    l.foldr max 0 ≤ n := by
  induction l with
  | nil => simp
  | cons a t ih =>
      simp only [List.foldr_cons, Nat.max_le]
      exact ⟨h a (by simp), ih fun x hx => h x (by simp [hx])⟩

lemma foldr_max_le_sum (l : List ℕ) : l.foldr max 0 ≤ l.sum := by
  induction l with
  | nil => simp
  | cons a t ih =>
      simp only [List.foldr_cons, List.sum_cons, Nat.max_le]
      exact ⟨Nat.le_add_right a t.sum, le_trans ih (Nat.le_add_left _ _)⟩

lemma mem_le_foldr_max {l : List ℕ} {x : ℕ} (h : x ∈ l) : x ≤ l.foldr max 0 := by
  induction l with
  | nil => simp at h
  | cons a t ih =>
      simp only [List.foldr_cons]
      rcases List.mem_cons.mp h with rfl | h
      · exact Nat.le_max_left _ _
      · exact le_trans (ih h) (Nat.le_max_right _ _)

lemma count_true_le_length (s : List Bool) : s.count true ≤ s.length :=
  List.count_le_length _ _

lemma longest_run_le_count (s : List Bool) : longest_run s ≤ s.count true := by
  have h := foldr_max_le_sum (runLengths s)
  have h2 := runLengthsAux_sum s 0
  simp only [longest_run, runLengths] at *
  omega

lemma longest_run_le_length (s : List Bool) : longest_run s ≤ s.length :=
  le_trans (longest_run_le_count s) (count_true_le_length s)

/-- **C1.**  For every boolean sequence of length `n`, the longest-run
statistic `rl.longest_run` (as used by `CFD2`) is at most `n`; it equals `n`
iff every entry is `True`, and it equals `0` iff no entry is `True`. -/
theorem longest_run_bounds (s : List Bool) :
    longest_run s ≤ s.length ∧
      (longest_run s = s.length ↔ ∀ b ∈ s, b = true) ∧
      (longest_run s = 0 ↔ ∀ b ∈ s, b = false) := by
  refine ⟨longest_run_le_length s, ⟨?_, ?_⟩, ⟨?_, ?_⟩⟩
  · -- longest = length → all true
    intro h
    have hc : s.count true = s.length := by
      have h1 := longest_run_le_count s
      have h2 := count_true_le_length s
      omega
    intro b hb
    exact ((List.count_eq_length.mp hc) b hb).symm
  · -- all true → longest = length
    intro h
    cases s with
    | nil => simp [longest_run, runLengths, runLengthsAux]
    | cons a t =>
        have hall := runLengthsAux_all_true (a :: t) h 0 (by simp)
        simp [longest_run, runLengths, hall]
  · -- longest = 0 → all false
    intro h b hb
    by_contra hbt
    have hb' : b = true := by cases b <;> simp_all
    subst hb'
    have hcount : 0 < s.count true := List.count_pos_iff.mpr hb
    have hsum : (runLengths s).sum = s.count true := by
      simpa using runLengthsAux_sum s 0
    have hne : runLengths s ≠ [] := by
      intro hnil
      rw [hnil] at hsum
      simp at hsum
      omega
    rcases List.exists_mem_of_ne_nil _ hne with ⟨x, hx⟩
    have hxpos : 0 < x := runLengthsAux_pos s 0 x hx
    have hle : x ≤ longest_run s := mem_le_foldr_max hx
    omega
  · -- all false → longest = 0
    intro h
    have hcount : s.count true = 0 := by
      rw [List.count_eq_zero]
      intro hmem
      exact absurd (h true hmem) (by decide)
    have hsum : (runLengths s).sum = 0 := by
      have := runLengthsAux_sum s 0
      simpa [hcount] using this
    have hnil : runLengths s = [] := by
      rcases hl : runLengths s with _ | ⟨x, t⟩
      · rfl
      · exfalso
        have hx : x ∈ runLengths s := by rw [hl]; exact List.mem_cons_self x t
        have hxpos : 0 < x := runLengthsAux_pos s 0 x hx
        rw [hl] at hsum
        simp [List.sum_cons] at hsum
        omega
    simp [longest_run, hnil]

/-! ### Period partitioning (`resample(time=freq)`)

A resampling frequency applied to a timeline of length `n` yields contiguous,
non-overlapping index intervals.  We embed a partitioning as the list of
segment lengths; `periodsOf` turns it into half-open index intervals
`[start, stop)`. -/

/-- Half-open index intervals of the partition, starting at `a`. -/
def periodsOfAux : List ℕ → ℕ → List (ℕ × ℕ)
  | [], _ => []
  | k :: rest, a => (a, a + k) :: periodsOfAux rest (a + k)

/-- The half-open index intervals `[start, stop)` of a partition given by
segment lengths. -/
def periodsOf (segs : List ℕ) : List (ℕ × ℕ) := periodsOfAux segs 0

/-- The per-period slices of a series under a partition: what
`resample(time=freq)` feeds to each group. -/
def segments (segs : List ℕ) (l : List α) : List (List α) :=
  (periodsOf segs).map (fun p => (l.drop p.1).take (p.2 - p.1))

lemma periodsOfAux_length (segs : List ℕ) : ∀ a, (periodsOfAux segs a).length = segs.length := by
  induction segs with
  | nil => intro a; rfl
  | cons k rest ih => intro a; simp [periodsOfAux, ih]

lemma periodsOf_length (segs : List ℕ) : (periodsOf segs).length = segs.length :=
  periodsOfAux_length segs 0

lemma segments_length (segs : List ℕ) (l : List α) :
    (segments segs l).length = segs.length := by
  simp [segments, periodsOf_length]

/-! ### `CFD` (xclim/indices.py lines 28-48)

`CFD` builds the index array `ind = arange(n)`, masks it where
`tasmin > K2C`, backfills the NaNs along time, takes `diff(time) - 1` and
resamples the result with `max`.  The `diff` output is labelled by the upper
timestamp, so period `[a, b)` receives the diff entries at times
`[max a 1, b)`. -/

/-- `ind.where(tasmin > K2C)`: the time index where the day is not a frost
day, NaN (`none`) elsewhere. -/
def indexMask (tasmin : List ℚ) : List (Option ℕ) :=
  tasmin.enum.map (fun p => if K2C < p.2 then some p.1 else none)

/-- `b.bfill(dim='time')`: every NaN is replaced by the next valid value
later in time; trailing NaNs remain NaN. -/
def bfill : List (Option α) → List (Option α)
  | [] => []
  | x :: rest =>
      let r := bfill rest
      (match x with
       | some v => some v
       | none =>
           match r with
           | [] => none
           | y :: _ => y) :: r

/-- `b.diff(dim='time') - 1` with NaN propagation; entry `j` is labelled by
time `j + 1`. -/
def diffMinusOne (b : List (Option ℕ)) : List (Option ℤ) :=
  List.zipWith
    (fun cur prev =>
      match cur, prev with
      | some c, some p => some ((c : ℤ) - (p : ℤ) - 1)
      | _, _ => none)
    b.tail b

/-- `max(dim='time')` with NaN skipping: the maximum of the valid entries,
NaN (`none`) when there is none. -/
def maxSkipNA (l : List (Option ℤ)) : Option ℤ :=
  match l.filterMap id with
  | [] => none
  | x :: xs => some (xs.foldl max x)

/-- `CFD` restricted to one spatial point: maximum number of consecutive
frost days per resampling period, via the index-difference pipeline of the
source. -/
def CFD_1d (tasmin : List ℚ) (segs : List ℕ) : List (Option ℤ) :=
  let dm := diffMinusOne (bfill (indexMask tasmin))
  (periodsOf segs).map
    (fun p => maxSkipNA ((dm.drop (max p.1 1 - 1)).take (p.2 - max p.1 1)))

/-- `CFD2` restricted to one spatial point: resample the frost mask
`tasmin < K2C` first, then apply `rl.longest_run` to each period slice. -/
def CFD2_1d (tasmin : List ℚ) (segs : List ℕ) : List ℕ :=
  (segments segs tasmin).map (fun seg => longest_run (seg.map (fun x => decide (x < K2C))))

/-- **C2, counterexample.**  Two temperature series agreeing on period 0
(indices 0 and 1 of a `[2,2]` partition) on which `CFD` reports different
period-0 statistics: the frost run `[273, 273]` crossing the boundary is
credited in full (length 2) to period 0, although only one of its days lies
inside that period.  The truncated per-period statistic (computed by `CFD2`)
is 1 for both periods. -/
theorem CFD_boundary_counterexample :
    List.take 2 ([274, 273, 273, 274] : List ℚ)
        = List.take 2 ([274, 273, 274, 274] : List ℚ) ∧
      (CFD_1d [274, 273, 273, 274] [2, 2]).get? 0 = some (some 2) ∧
      (CFD_1d [274, 273, 274, 274] [2, 2]).get? 0 = some (some 1) ∧
      CFD_1d [274, 273, 273, 274] [2, 2] = [some 2, some (-1)] ∧
      CFD2_1d [274, 273, 273, 274] [2, 2] = [1, 1] := by
  decide

/-- **C2, amended.**  For `CFD2` (resample first, then `longest_run` per
group) the claim holds: the statistic of period `i` is a function of the mask
values inside period `i` only, and it never exceeds the period length, so a
run crossing a boundary is truncated there.  (`CFD`, by contrast, computes
run lengths globally before resampling and credits a boundary-crossing run in
full to the period containing its start, as the counterexample shows.) -/
theorem CFD2_period_local (t u : List ℚ) (segs : List ℕ) (i : ℕ)
    (h : (segments segs t).get? i = (segments segs u).get? i) :
    (CFD2_1d t segs).get? i = (CFD2_1d u segs).get? i ∧
      ∀ v, (CFD2_1d t segs).get? i = some v →
        ∀ seg, (segments segs t).get? i = some seg → v ≤ seg.length := by
  constructor
  · simp only [CFD2_1d, List.get?_map, h]
  · intro v hv seg hseg
    have hmap : (CFD2_1d t segs).get? i
        = ((segments segs t).get? i).map
            (fun seg => longest_run (seg.map (fun x => decide (x < K2C)))) :=
      List.get?_map _ _ _
    rw [hmap, hseg, Option.map_some'] at hv
    have hv2 := Option.some.inj hv
    have hle := longest_run_le_length (seg.map (fun x => decide (x < K2C)))
    simp only [List.length_map] at hle
    omega

theorem CFD2_period_local_witness :
    (CFD2_1d [274, 273, 273, 274] [2, 2]).get? 0
      = (CFD2_1d [274, 273, 274, 274] [2, 2]).get? 0 :=
  (CFD2_period_local [274, 273, 273, 274] [274, 273, 274, 274] [2, 2] 0 (by decide)).1

/-! ### `HWI` and `CSI` (xclim/indices.py lines 180-215 and 78-94)

Both compute a boolean exceedance mask, resample it, and apply an inner
closure `func` to each period.  In the source, `func` evaluates
`xr.apply_ufunc(rl.windowed_run_count, ...)` but has no `return` statement,
so its value is Python's `None` (unlike `CFD2`, whose inner closure does
return its `apply_ufunc` result). -/

/-- The inner closure of `HWI`: the windowed run count is computed and then
discarded because the source lacks a `return`; the closure yields `None`. -/
def HWI_inner (window : ℕ) (x : List Bool) : Option ℕ :=
  let _r := windowed_run_count window x
  none

/-- `HWI` restricted to one spatial point. -/
def HWI_1d (tasmax : List ℚ) (thresh : ℚ) (window : ℕ) (segs : List ℕ) :
    List (Option ℕ) :=
  let over := tasmax.map (fun t => decide (K2C + thresh < t))
  (segments segs over).map (HWI_inner window)

/-- The inner closure of `CSI`: same missing `return` as `HWI`. -/
def CSI_inner (window : ℕ) (x : List Bool) : Option ℕ :=
  let _r := windowed_run_count window x
  none

/-- `CSI` restricted to one spatial point. -/
def CSI_1d (tas : List ℚ) (thresh : ℚ) (window : ℕ) (segs : List ℕ) :
    List (Option ℕ) :=
  let over := tas.map (fun t => decide (t < K2C + thresh))
  (segments segs over).map (CSI_inner window)

lemma map_const_none (l : List α) (f : α → Option β) (hf : ∀ x, f x = none) :
    l.map f = List.replicate l.length none := by
  induction l with
  | nil => rfl
  | cons a t ih => simp [hf, ih, List.replicate_succ]

/-- **C3.**  Contrary to the output contract, `HWI` and `CSI` never produce a
defined numeric value: the inner closure omits `return`, so every
(point, period) cell is absent (`None`).  In particular, on seven consecutive
days at 30 ℃ with threshold 25 ℃ and window 5, the expected heat-wave day
count is 7 (`windowed_run_count` does compute it) but the emitted period value
is `none`. -/
theorem HWI_CSI_periods_absent :
    (∀ (tasmax tas : List ℚ) (threshH threshC : ℚ) (window : ℕ) (segs : List ℕ),
        HWI_1d tasmax threshH window segs = List.replicate segs.length none ∧
          CSI_1d tas threshC window segs = List.replicate segs.length none) ∧
      HWI_1d [303, 303, 303, 303, 303, 303, 303] 25 5 [7] = [none] ∧
      windowed_run_count 5 (List.replicate 7 true) = 7 := by
  refine ⟨?_, by decide, by decide⟩
  intro tasmax tas threshH threshC window segs
  constructor
  · simp only [HWI_1d]
    rw [map_const_none _ (HWI_inner window) (fun x => rfl), segments_length]
  · simp only [CSI_1d]
    rw [map_const_none _ (CSI_inner window) (fun x => rfl), segments_length]

/-! ### `percentile_doy` (xclim/indices.py lines 312-328)

`percentile_doy(arr, window, per)` builds
`rr = arr.rolling(1, center=True, time=window).construct('window')` — a
centered positional window of width `window` along the time axis, NaN-padded
at the series ends — then groups `rr` by `time.dayofyear` and takes, per
group, the `per`-quantile over the pooled (time, window) values, skipping
NaN.  A series is embedded as the value list `vals` plus the day-of-year list
`doys` of its time coordinate. -/

/-- The window row of `rr` at time `t`: entry `j` holds the value at position
`t + j - window//2`, NaN (`none`) outside the series. -/
def rollingWindow (w : ℕ) (vals : List α) (t : ℕ) : List (Option α) :=
  (List.range w).map (fun j => if w / 2 ≤ t + j then vals.get? (t + j - w / 2) else none)

/-- The time positions of the `groupby('time.dayofyear')` group of key `d`. -/
def groupPositions (doys : List ℕ) (d : ℕ) : List ℕ :=
  (doys.enum.filter (fun p => decide (p.2 = d))).map (fun p => p.1)

/-- All (time, window) entries pooled for day-of-year `d`, NaNs included. -/
def pooled (w : ℕ) (vals : List α) (doys : List ℕ) (d : ℕ) : List (Option α) :=
  (groupPositions doys d).bind (rollingWindow w vals)

/-- The non-NaN pooled values, i.e. what `quantile(per, skipna)` consumes. -/
def pooledValues (w : ℕ) (vals : List α) (doys : List ℕ) (d : ℕ) : List α :=
  (pooled w vals doys d).filterMap id

/-- Circular day-of-year distance in a year of length `L`. -/
def circDist (L a b : ℕ) : ℕ := min ((a + L - b) % L) ((b + L - a) % L)

/-- Modelled from the spec: the pooling rule the spec ascribes to
DayOfYearPercentileEngine — the values at all timestamps whose day-of-year
lies within `⌊w/2⌋` days of `d`, circularly, wrapping across the Dec/Jan
boundary of a year of length `L`, across all calibration years. -/
def pooledCircular (L w : ℕ) (vals : List α) (doys : List ℕ) (d : ℕ) : List α :=
  ((doys.enum.filter (fun p => decide (circDist L p.2 d ≤ w / 2))).map
      (fun p => p.1)).filterMap vals.get?

/-- Insertion into a sorted list of day-of-year keys, skipping duplicates:
`groupby` visits each distinct key once, in increasing order. -/
def insertKey (x : ℕ) : List ℕ → List ℕ
  | [] => [x]
  | y :: t => if x = y then y :: t else if x ≤ y then x :: y :: t else y :: insertKey x t

/-- The distinct day-of-year keys of the series, in increasing order. -/
def doyKeys (doys : List ℕ) : List ℕ := doys.foldr insertKey []

/-- Sorted insertion for the quantile computation. -/
def insertQ (x : ℚ) : List ℚ → List ℚ
  | [] => [x]
  | y :: t => if x ≤ y then x :: y :: t else y :: insertQ x t

/-- Insertion sort of the pooled values. -/
def sortQ (l : List ℚ) : List ℚ := l.foldr insertQ []

/-- `numpy`'s quantile of a 1-D sample with linear interpolation: quantiles
outside `[0, 1]` are rejected; the quantile of an empty (all-NaN) sample is
NaN. -/
def npQuantile (q : ℚ) (l : List ℚ) : Except String (Option ℚ) :=
  if q < 0 ∨ 1 < q then .error "Quantiles must be in the range [0, 1]"
  else
    match sortQ l with
    | [] => .ok none
    | v :: vs =>
        let s := v :: vs
        let pos := q * ((s.length - 1 : ℕ) : ℚ)
        let i := pos.num.toNat / pos.den
        let frac := pos - (i : ℚ)
        let lo := s.getD i v
        let hi := s.getD (i + 1) lo
        .ok (some (lo + frac * (hi - lo)))

/-- Sequencing of the per-group loop body: the first raised error aborts the
call, exactly like an exception escaping the Python `for` loop. -/
def mapExcept (f : α → Except ε β) : List α → Except ε (List β)
  | [] => .ok []
  | a :: l =>
      match f a with
      | .error e => .error e
      | .ok b =>
          match mapExcept f l with
          | .error e => .error e
          | .ok bs => .ok (b :: bs)

/-- `percentile_doy` for one spatial point: one `(dayofyear, quantile)` entry
per distinct day-of-year of the series, visited in increasing order. -/
def percentile_doy (vals : List ℚ) (doys : List ℕ) (w : ℕ) (per : ℚ) :
    Except String (List (ℕ × Option ℚ)) :=
  mapExcept
    (fun d => (npQuantile per (pooledValues w vals doys d)).map (fun v => (d, v)))
    (doyKeys doys)

/-- `true` iff the call raised. -/
def raises (e : Except String α) : Bool :=
  match e with
  | .error _ => true
  | .ok _ => false

set_option maxRecDepth 40000 in
/-- **C4, counterexample.**  The series of the claim's own example: 3
calibration years of 365 days (`doys` cycles 1..365), values = position
index, `window = 5`, day-of-year `d = 1`.  The value at position 1093 —
Dec 30 of the third year, within 2 days of Jan 1 circularly — is pooled by
the claimed circular rule but not by the code, and the code pools 13 values,
not the 15 of the circular rule: the rolling window is positional, extends
across year boundaries linearly, and is clipped at the series ends. -/
theorem percentile_doy_pooling_not_circular :
    ((1093 : ℤ) ∈ pooledCircular 365 5 ((List.range 1095).map (fun i => (i : ℤ)))
        ((List.range 1095).map (fun i => i % 365 + 1)) 1) ∧
      ¬ ((1093 : ℤ) ∈ pooledValues 5 ((List.range 1095).map (fun i => (i : ℤ)))
        ((List.range 1095).map (fun i => i % 365 + 1)) 1) ∧
      (pooledValues 5 ((List.range 1095).map (fun i => (i : ℤ)))
        ((List.range 1095).map (fun i => i % 365 + 1)) 1).length = 13 ∧
      (pooledCircular 365 5 ((List.range 1095).map (fun i => (i : ℤ)))
        ((List.range 1095).map (fun i => i % 365 + 1)) 1).length = 15 := by
  decide

/-- **C4, amended.**  What `percentile_doy` pools for day-of-year `d` is
characterized positionally: a value is pooled iff it sits within
`⌊w/2⌋` positions along the time axis of some timestamp whose day-of-year is
`d`.  Windows cross calendar-year boundaries linearly and are clipped at the
series ends; they never wrap circularly. -/
theorem percentile_doy_pooling_linear (w : ℕ) (vals : List α) (doys : List ℕ)
    (d : ℕ) (x : α) (hw : w = 2 * (w / 2) + 1) :
    x ∈ pooledValues w vals doys d ↔
      ∃ t s : ℕ, doys.get? t = some d ∧ vals.get? s = some x ∧
        s ≤ t + w / 2 ∧ t ≤ s + w / 2 := by
  unfold pooledValues pooled groupPositions rollingWindow
  constructor
  · intro hx
    rcases List.mem_filterMap.mp hx with ⟨o, ho, hox⟩
    obtain rfl : o = some x := by simpa using hox
    rcases List.mem_bind.mp ho with ⟨t, ht, hto⟩
    rcases List.mem_map.mp ht with ⟨p, hp, hpt⟩
    rcases List.mem_filter.mp hp with ⟨hpe, hpd⟩
    have hpd2 : p.2 = d := of_decide_eq_true hpd
    have hget : doys.get? p.1 = some p.2 := by
      have := List.mem_enum_iff_get?.mp hpe
      simpa using this
    rcases List.mem_map.mp hto with ⟨j, hj, hjo⟩
    have hjw := List.mem_range.mp hj
    by_cases hc : w / 2 ≤ t + j
    · rw [if_pos hc] at hjo
      refine ⟨t, t + j - w / 2, ?_, hjo, by omega, by omega⟩
      rw [← hpt, ← hpd2]; exact hget
    · rw [if_neg hc] at hjo
      exact absurd hjo (by simp)
  · rintro ⟨t, s, htd, hs, hs1, hs2⟩
    refine List.mem_filterMap.mpr ⟨some x, ?_, rfl⟩
    refine List.mem_bind.mpr ⟨t, ?_, ?_⟩
    · refine List.mem_map.mpr ⟨(t, d), ?_, rfl⟩
      refine List.mem_filter.mpr ⟨?_, by simp⟩
      exact List.mem_enum_iff_get?.mpr (by simpa using htd)
    · refine List.mem_map.mpr ⟨s + w / 2 - t, List.mem_range.mpr (by omega), ?_⟩
      have hc : w / 2 ≤ t + (s + w / 2 - t) := by omega
      rw [if_pos hc]
      have he : t + (s + w / 2 - t) - w / 2 = s := by omega
      rw [he, hs]

theorem percentile_doy_pooling_linear_witness :
    (2 : ℤ) ∈ pooledValues 3 [(1 : ℤ), 2, 3] [1, 2, 3] 1 :=
  (percentile_doy_pooling_linear 3 [(1 : ℤ), 2, 3] [1, 2, 3] 1 2 (by decide)).mpr
    ⟨0, 1, by decide, by decide, by decide, by decide⟩

/-- **C5, counterexample.**  `per = 0` lies outside the open interval
`(0, 1)`, yet `percentile_doy` performs no validation and returns a coerced
percentile table (the per-day minima) instead of failing. -/
theorem percentile_doy_accepts_boundary_per :
    ¬ (0 < (0 : ℚ) ∧ (0 : ℚ) < 1) ∧
      percentile_doy [1, 2, 3] [1, 2, 3] 3 0
        = .ok [(1, some 1), (2, some 1), (3, some 2)] := by
  constructor
  · simp
  · norm_num [percentile_doy, mapExcept, doyKeys, insertKey, pooledValues, pooled,
      groupPositions, rollingWindow, npQuantile, sortQ, insertQ, Except.map, List.enum,
      List.enumFrom, List.range, List.range.loop, List.filter, List.filterMap, List.getD]

lemma insertKey_ne_nil (x : ℕ) (l : List ℕ) : insertKey x l ≠ [] := by
  cases l with
  | nil => simp [insertKey]
  | cons y t =>
      simp only [insertKey]
      split
      · simp
      · split <;> simp

lemma doyKeys_ne_nil {doys : List ℕ} (h : doys ≠ []) : doyKeys doys ≠ [] := by
  cases doys with
  | nil => exact absurd rfl h
  | cons a t => exact insertKey_ne_nil a _

lemma percentile_doy_error_of_bad_per
    (vals : List ℚ) (doys : List ℕ) (w : ℕ) (per : ℚ)
    (hne : doys ≠ []) (hper : per < 0 ∨ 1 < per) :
    raises (percentile_doy vals doys w per) = true := by
  rcases hk : doyKeys doys with _ | ⟨d, ds⟩
  · exact absurd hk (doyKeys_ne_nil hne)
  · have hq : npQuantile per (pooledValues w vals doys d)
        = .error "Quantiles must be in the range [0, 1]" := by
      unfold npQuantile
      rw [if_pos hper]
    simp only [percentile_doy, hk, mapExcept, hq, Except.map, raises]

/-- **C5, amended.**  Run statistics reject `window ≤ 0` (spec-modelled:
`run_length` is absent from the sources).  `percentile_doy`, however,
performs no eager validation of `per`: `per = 0`, though outside `(0, 1)`,
is silently accepted and returns a coerced percentile table of per-day
minima (see the counterexample); an error is raised only for `per < 0` or
`per > 1`, by the underlying quantile routine while the first day-of-year
group is processed, and escapes to the caller when the series is
nonempty. -/
theorem percentile_doy_window_contract
    (vals : List ℚ) (doys : List ℕ) (w : ℕ) (per : ℚ)
    (window : ℤ) (s : List Bool)
    (hne : doys ≠ []) (hper : per < 0 ∨ 1 < per) (hwin : window ≤ 0) :
    raises (percentile_doy vals doys w per) = true ∧
      raises (run_day_count window s) = true := by
  refine ⟨percentile_doy_error_of_bad_per vals doys w per hne hper, ?_⟩
  simp only [run_day_count, if_pos hwin, raises]

theorem percentile_doy_window_contract_witness :
    raises (percentile_doy [1] [1] 3 2) = true ∧
      raises (run_day_count 0 [true]) = true :=
  percentile_doy_window_contract [1] [1] 3 2 0 [true] (by decide) (by decide)
    (by decide)

/-- **C6.**  `percentile_doy` is deterministic: two invocations on entrywise
identical inputs and identical configuration return the identical table. -/
theorem percentile_doy_deterministic (v₁ v₂ : List ℚ) (d₁ d₂ : List ℕ)
    (w₁ w₂ : ℕ) (p₁ p₂ : ℚ) (hv : v₁ = v₂) (hd : d₁ = d₂) (hw : w₁ = w₂)
    (hp : p₁ = p₂) :
    percentile_doy v₁ d₁ w₁ p₁ = percentile_doy v₂ d₂ w₂ p₂ := by
  subst hv; subst hd; subst hw; subst hp; rfl

theorem percentile_doy_deterministic_witness :
    percentile_doy [1, 2] [1, 2] 5 (mkRat 1 10)
      = percentile_doy [1, 2] [1, 2] 5 (mkRat 1 10) :=
  percentile_doy_deterministic [1, 2] [1, 2] [1, 2] [1, 2] 5 5 (mkRat 1 10)
    (mkRat 1 10) rfl rfl rfl rfl

/-! ### `xclim/indices/_conversion.py`

The conversion formulas use numpy's transcendental functions (`exp`, `log`,
`log10`, `10 ** x`); the spec places the physical formulas out of scope, so
those external functions are abstracted as a parameter record while every
piece of control flow, arithmetic and masking of the source is kept.  Unit
conversion (`convert_units_to`) is the identity here: the embedding works on
the target units of each function. -/

/-- The external transcendental functions of numpy. -/
structure RealOps where
  exp : ℚ → ℚ
  log : ℚ → ℚ
  log10 : ℚ → ℚ
  pow10 : ℚ → ℚ

/-- `true` iff the call returned normally. -/
def isOk (e : Except ε α) : Bool :=
  match e with
  | .ok _ => true
  | .error _ => false

/-- The result of a normally-returning call, with a default for the error
case. -/
def okD (e : Except ε α) (d : α) : α :=
  match e with
  | .ok a => a
  | .error _ => d

/-- The method spellings handled by `saturation_vapor_pressure`. -/
def svpKnownMethods : List String :=
  ["sonntag90", "SO90", "tetens30", "TE30", "goffgratch46", "GG46", "wmo08", "WMO08"]

/-- `saturation_vapor_pressure(tas, ice_thresh, method)`.  `thresh` is the
converted `ice_thresh` (0 K when `ice_thresh=None`); `ref_is_water` is
`tas > thresh` pointwise. -/
def saturation_vapor_pressure (ops : RealOps) (tas : List ℚ) (thresh : ℚ)
    (method : String) : Except String (List ℚ) :=
  if method = "sonntag90" ∨ method = "SO90" then
    .ok (tas.map (fun t =>
      if thresh < t then
        100 * ops.exp (-6096.9385 / t + 16.635794 + -2.711193e-2 * t
          + 1.673952e-5 * t ^ (2 : ℕ) + 2.433502 * ops.log t)
      else
        100 * ops.exp (-6024.5282 / t + 24.7219 + 1.0613868e-2 * t
          + -1.3198825e-5 * t ^ (2 : ℕ) + -0.49382577 * ops.log t)))
  else if method = "tetens30" ∨ method = "TE30" then
    .ok (tas.map (fun t =>
      if thresh < t then 610.78 * ops.exp (17.269388 * (t - 273.16) / (t - 35.86))
      else 610.78 * ops.exp (21.8745584 * (t - 273.16) / (t - 7.66))))
  else if method = "goffgratch46" ∨ method = "GG46" then
    .ok (tas.map (fun t =>
      if thresh < t then
        101325 * ops.pow10 (-7.90298 * (373.16 / t - 1)
          + 5.02808 * ops.log10 (373.16 / t)
          + -1.3817e-7 * (ops.pow10 (11.344 * (1 - t / 373.16)) - 1)
          + 8.1328e-3 * (ops.pow10 (-3.49149 * (373.16 / t - 1)) - 1))
      else
        611.73 * ops.pow10 (-9.09718 * (273.16 / t - 1)
          + -3.56654 * ops.log10 (273.16 / t)
          + 0.876793 * (1 - t / 273.16))))
  else if method = "wmo08" ∨ method = "WMO08" then
    .ok (tas.map (fun t =>
      if thresh < t then 611.2 * ops.exp (17.62 * (t - 273.16) / (t - 30.04))
      else 611.2 * ops.exp (22.46 * (t - 273.16) / (t - 0.54))))
  else
    .error ("Method " ++ method
      ++ " is not in [sonntag90, tetens30, goffgratch46, wmo08]")

/-- `snowfall_approximation(pr, tas, thresh, method)`: under method
"binary", `pr.where(tas < thresh, 0)`. -/
def snowfall_approximation (pr tas : List ℚ) (thresh : ℚ) (method : String) :
    Except String (List ℚ) :=
  if method = "binary" then
    .ok (List.zipWith (fun p t => if t < thresh then p else 0) pr tas)
  else
    .error ("Method " ++ method ++ " not in [binary].")

/-- `rain_approximation(pr, tas, thresh, method)`:
`pr - snowfall_approximation(pr, tas, thresh, method)`. -/
def rain_approximation (pr tas : List ℚ) (thresh : ℚ) (method : String) :
    Except String (List ℚ) :=
  (snowfall_approximation pr tas thresh method).map
    (fun prsn => List.zipWith (fun p s => p - s) pr prsn)

/-- **C7.**  A method label outside the handled set makes both
`saturation_vapor_pressure` and `snowfall_approximation` raise before any
result is produced, while every handled label takes a formula branch and the
error branch is never reached.  (The docstring of
`saturation_vapor_pressure` also mentions a label "dewpoint", but the
dispatch does not handle it: it is rejected like any unknown label.) -/
theorem svp_snowfall_method_dispatch (ops : RealOps) (tas pr : List ℚ)
    (thresh tsnow : ℚ) (method : String) :
    (method ∈ svpKnownMethods →
        isOk (saturation_vapor_pressure ops tas thresh method) = true) ∧
      (method ∉ svpKnownMethods →
        saturation_vapor_pressure ops tas thresh method
          = .error ("Method " ++ method
              ++ " is not in [sonntag90, tetens30, goffgratch46, wmo08]")) ∧
      (method = "binary" → isOk (snowfall_approximation pr tas tsnow method) = true) ∧
      (method ≠ "binary" →
        snowfall_approximation pr tas tsnow method
          = .error ("Method " ++ method ++ " not in [binary].")) := by
  refine ⟨?_, ?_, ?_, ?_⟩
  · intro h
    simp only [svpKnownMethods, List.mem_cons, List.not_mem_nil, or_false] at h
    rcases h with h | h | h | h | h | h | h | h <;>
      subst h <;> simp [saturation_vapor_pressure, isOk]
  · intro h
    simp only [svpKnownMethods, List.mem_cons, List.not_mem_nil, or_false] at h
    push_neg at h
    obtain ⟨h1, h2, h3, h4, h5, h6, h7, h8⟩ := h
    simp [saturation_vapor_pressure, h1, h2, h3, h4, h5, h6, h7, h8]
  · intro h
    subst h
    simp [snowfall_approximation, isOk]
  · intro h
    simp [snowfall_approximation, h]

theorem svp_snowfall_method_dispatch_witness :
    isOk (saturation_vapor_pressure ⟨id, id, id, id⟩ [280] 0 "sonntag90") = true ∧
      saturation_vapor_pressure ⟨id, id, id, id⟩ [280] 0 "dewpoint"
        = .error ("Method " ++ "dewpoint"
            ++ " is not in [sonntag90, tetens30, goffgratch46, wmo08]") ∧
      isOk (snowfall_approximation [1] [270] 0 "binary") = true ∧
      snowfall_approximation [1] [270] 0 "brown68"
        = .error ("Method " ++ "brown68" ++ " not in [binary].") :=
  ⟨(svp_snowfall_method_dispatch ⟨id, id, id, id⟩ [280] [1] 0 0 "sonntag90").1
      (by decide),
    (svp_snowfall_method_dispatch ⟨id, id, id, id⟩ [280] [1] 0 0 "dewpoint").2.1
      (by decide),
    (svp_snowfall_method_dispatch ⟨id, id, id, id⟩ [270] [1] 0 0 "binary").2.2.1 rfl,
    (svp_snowfall_method_dispatch ⟨id, id, id, id⟩ [270] [1] 0 0 "brown68").2.2.2
      (by decide)⟩

lemma zipWith_add_self_sub (pr aux : List ℚ) (h : pr.length = aux.length) :
    List.zipWith (· + ·) aux (List.zipWith (fun p s => p - s) pr aux) = pr := by
  induction pr generalizing aux with
  | nil => cases aux with
      | nil => rfl
      | cons b bs => simp at h
  | cons p ps ih =>
      cases aux with
      | nil => simp at h
      | cons b bs =>
          simp only [List.zipWith_cons_cons, List.cons.injEq]
          exact ⟨by ring, ih bs (by simpa using h)⟩

/-- **C8.**  With the "binary" method, the snowfall and rain approximations
partition total precipitation exactly: pointwise,
`snowfall_approximation + rain_approximation = pr`. -/
theorem snowfall_plus_rain_eq_pr (pr tas : List ℚ) (thresh : ℚ)
    (h : pr.length = tas.length) :
    List.zipWith (· + ·) (okD (snowfall_approximation pr tas thresh "binary") [])
      (okD (rain_approximation pr tas thresh "binary") []) = pr := by
  have hsnow : snowfall_approximation pr tas thresh "binary"
      = .ok (List.zipWith (fun p t => if t < thresh then p else 0) pr tas) := by
    simp [snowfall_approximation]
  simp only [rain_approximation, hsnow, Except.map, okD]
  exact zipWith_add_self_sub pr _ (by simp [h])

theorem snowfall_plus_rain_eq_pr_witness :
    List.zipWith (· + ·) (okD (snowfall_approximation [5, 7] [270, 280] 273 "binary") [])
      (okD (rain_approximation [5, 7] [270, 280] 273 "binary") []) = [5, 7] :=
  snowfall_plus_rain_eq_pr [5, 7] [270, 280] 273 rfl

/-- `rh.clip(0, 100)` pointwise. -/
def clipQ (lo hi x : ℚ) : ℚ := max lo (min hi x)

/-- The `invalid_values` post-processing of `relative_humidity`: "clip"
clamps to `[0, 100]`, "mask" replaces out-of-range values by NaN, anything
else leaves the values alone. -/
def applyInvalid (invalid : Option String) (rh : List ℚ) : List (Option ℚ) :=
  if invalid = some "clip" then rh.map (fun v => some (clipQ 0 100 v))
  else if invalid = some "mask" then
    rh.map (fun v => if 0 ≤ v ∧ v ≤ 100 then some v else none)
  else rh.map some

/-- The raw relative humidity of `relative_humidity` before the
`invalid_values` post-processing.  `L = 2.501e6` and `Rw = 461.5` (the
source writes the tuple `(461.5,)`, which broadcasts like the scalar).
The third route needs both `huss` and `ps`. -/
def relative_humidity_raw (ops : RealOps) (tas : List ℚ)
    (dtas huss ps : Option (List ℚ)) (thresh : ℚ) (method : String) :
    Except String (List ℚ) :=
  if method = "bohren98" ∨ method = "BA90" then
    match dtas with
    | none => .error "To use method bohren98 (BA98), dewpoint must be given."
    | some dt =>
        .ok (List.zipWith
          (fun t td => 100 * ops.exp (-2.501e6 * (t - td) / (461.5 * t * td)))
          tas dt)
  else
    match dtas with
    | some dt =>
        match saturation_vapor_pressure ops dt thresh method with
        | .error e => .error e
        | .ok e_sat_dt =>
            match saturation_vapor_pressure ops tas thresh method with
            | .error e => .error e
            | .ok e_sat_t =>
                .ok (List.zipWith (fun a b => 100 * a / b) e_sat_dt e_sat_t)
    | none =>
        match huss, ps with
        | some hu, some p =>
            match saturation_vapor_pressure ops tas thresh method with
            | .error e => .error e
            | .ok e_sat =>
                let w := hu.map (fun q => q / (1 - q))
                let w_sat := List.zipWith (fun e pp => 0.62198 * e / (pp - e)) e_sat p
                .ok (List.zipWith (fun a b => 100 * a / b) w w_sat)
        | _, _ => .error "dewpoint or specific humidity and pressure must be given"

/-- `relative_humidity(tas, dtas, huss, ps, ice_thresh, method,
invalid_values)`. -/
def relative_humidity (ops : RealOps) (tas : List ℚ)
    (dtas huss ps : Option (List ℚ)) (thresh : ℚ) (method : String)
    (invalid : Option String) : Except String (List (Option ℚ)) :=
  (relative_humidity_raw ops tas dtas huss ps thresh method).map (applyInvalid invalid)

/-- **C9.**  Whenever `relative_humidity` returns, every entry of a
`invalid_values="clip"` result is a defined value inside `[0, 100]`, and
every entry of a `invalid_values="mask"` result is either NaN or a defined
value inside `[0, 100]`. -/
theorem relative_humidity_range (ops : RealOps) (tas : List ℚ)
    (dtas huss ps : Option (List ℚ)) (thresh : ℚ) (method : String)
    (lc lm : List (Option ℚ))
    (hc : relative_humidity ops tas dtas huss ps thresh method (some "clip") = .ok lc)
    (hm : relative_humidity ops tas dtas huss ps thresh method (some "mask") = .ok lm) :
    (∀ x ∈ lc, ∃ v, x = some v ∧ 0 ≤ v ∧ v ≤ 100) ∧
      (∀ x ∈ lm, x = none ∨ ∃ v, x = some v ∧ 0 ≤ v ∧ v ≤ 100) := by
  constructor
  · intro x hx
    cases hraw : relative_humidity_raw ops tas dtas huss ps thresh method with
    | error e => rw [relative_humidity, hraw] at hc; cases hc
    | ok rh =>
        rw [relative_humidity, hraw] at hc
        have hlc : lc = applyInvalid (some "clip") rh := by
          cases hc; rfl
        have hclip : applyInvalid (some "clip") rh
            = rh.map (fun v => some (clipQ 0 100 v)) := by
          simp [applyInvalid]
        rw [hlc, hclip] at hx
        rcases List.mem_map.mp hx with ⟨v, hvm, hveq⟩
        refine ⟨clipQ 0 100 v, hveq.symm, le_max_left _ _, ?_⟩
        simp only [clipQ, max_le_iff]
        exact ⟨by norm_num, le_trans (min_le_left _ _) (by norm_num)⟩
  · intro x hx
    cases hraw : relative_humidity_raw ops tas dtas huss ps thresh method with
    | error e => rw [relative_humidity, hraw] at hm; cases hm
    | ok rh =>
        rw [relative_humidity, hraw] at hm
        have hlm : lm = applyInvalid (some "mask") rh := by
          cases hm; rfl
        have hmask : applyInvalid (some "mask") rh
            = rh.map (fun v => if 0 ≤ v ∧ v ≤ 100 then some v else none) := by
          simp [applyInvalid]
        rw [hlm, hmask] at hx
        rcases List.mem_map.mp hx with ⟨v, hvm, hveq⟩
        by_cases hv : 0 ≤ v ∧ v ≤ 100
        · exact Or.inr ⟨v, by rw [← hveq]; simp [hv], hv.1, hv.2⟩
        · exact Or.inl (by rw [← hveq]; simp [hv])

theorem relative_humidity_range_witness :
    (∀ x ∈ [some (100 : ℚ)], ∃ v, x = some v ∧ 0 ≤ v ∧ v ≤ 100) ∧
      (∀ x ∈ [(none : Option ℚ)],
        x = none ∨ ∃ v, x = some v ∧ 0 ≤ v ∧ v ≤ 100) :=
  relative_humidity_range ⟨fun _ => 2, id, id, id⟩ [273] (some [273]) none none 0
    "bohren98" [some 100] [none] (by with_unfolding_all rfl)
    (by with_unfolding_all rfl)

/-! ### `uas_vas_2_sfcwind` (xclim/indices/_conversion.py lines 47-99)

`wind = hypot(uas, vas)` and `windfromdir_math = degrees(arctan2(vas, uas))`
are numpy transcendentals; the claim concerns the meteorological-convention
pipeline applied to them, so the embedding takes the computed speed and
mathematical angle as inputs and performs the `% 360`, banker-rounding
adjustment and calm masking of the source. -/

/-- Python's `%` on rationals (result has the sign of the divisor). -/
def qmod360 (a : ℚ) : ℚ := a - 360 * ((⌊a / 360⌋ : ℤ) : ℚ)

/-- numpy's `.round()`: round half to even. -/
def roundHalfEven (q : ℚ) : ℤ :=
  let f := ⌊q⌋
  let r := q - (f : ℚ)
  if r < 1 / 2 then f
  else if 1 / 2 < r then f + 1
  else if f % 2 = 0 then f else f + 1

/-- The wind-direction component of `uas_vas_2_sfcwind`:
`windfromdir = (270 - windfromdir_math) % 360`, entries rounding to 0 become
360, and calm winds (speed below the threshold) become 0. -/
def uas_vas_2_sfcwind_dir (wind windfromdir_math : List ℚ)
    (calm_wind_thresh : ℚ) : List ℚ :=
  let windfromdir := windfromdir_math.map (fun a => qmod360 (270 - a))
  let adjusted := windfromdir.map (fun a => if roundHalfEven a = 0 then 360 else a)
  List.zipWith (fun w a => if w < calm_wind_thresh then 0 else a) wind adjusted

lemma qmod360_nonneg_lt (a : ℚ) : 0 ≤ qmod360 a ∧ qmod360 a < 360 := by
  have h1 : ((⌊a / 360⌋ : ℤ) : ℚ) ≤ a / 360 := Int.floor_le _
  have h2 : a / 360 < (⌊a / 360⌋ : ℤ) + 1 := Int.lt_floor_add_one _
  have ha : a = 360 * (a / 360) := by field_simp
  constructor
  · have := mul_le_mul_of_nonneg_left h1 (show (0 : ℚ) ≤ 360 by norm_num)
    simp only [qmod360]
    linarith
  · have := (mul_lt_mul_left (show (0 : ℚ) < 360 by norm_num)).mpr h2
    simp only [qmod360]
    linarith

lemma roundHalfEven_eq_zero {v : ℚ} (h0 : 0 ≤ v) (hv : v ≤ 1 / 2) :
    roundHalfEven v = 0 := by
  have hf : ⌊v⌋ = 0 := by
    rw [Int.floor_eq_zero_iff]
    constructor
    · exact h0
    · calc v ≤ 1 / 2 := hv
        _ < 1 := by norm_num
  simp only [roundHalfEven, hf, Int.cast_zero, sub_zero]
  rcases lt_or_eq_of_le hv with h | h
  · rw [if_pos h]
  · rw [if_neg (by rw [h]; exact lt_irrefl _),
      if_neg (by rw [h]; exact lt_irrefl _)]
    norm_num

lemma get?_zipWith (f : α → β → γ) (l₁ : List α) (l₂ : List β) (i : ℕ) (z : γ)
    (hz : (List.zipWith f l₁ l₂).get? i = some z) :
    ∃ x y, l₁.get? i = some x ∧ l₂.get? i = some y ∧ z = f x y := by
  induction l₁ generalizing l₂ i with
  | nil => simp [List.zipWith] at hz
  | cons a as ih =>
      cases l₂ with
      | nil => simp [List.zipWith] at hz
      | cons b bs =>
          cases i with
          | zero =>
              simp only [List.zipWith_cons_cons, List.get?] at hz
              exact ⟨a, b, rfl, rfl, (Option.some.inj hz).symm⟩
          | succ n =>
              simp only [List.zipWith_cons_cons, List.get?] at hz
              exact ih bs n hz

/-- **C10.**  The direction returned by `uas_vas_2_sfcwind` is 0 exactly at
the points whose wind speed is below `calm_wind_thresh`; at every other
point it lies in `[0.5, 360]` — northerly winds map to 360, never 0. -/
theorem sfcwind_direction_range (wind wfm : List ℚ) (thresh : ℚ) (i : ℕ)
    (w a : ℚ) (hw : wind.get? i = some w)
    (ha : (uas_vas_2_sfcwind_dir wind wfm thresh).get? i = some a) :
    (a = 0 ↔ w < thresh) ∧ (¬ w < thresh → 1 / 2 ≤ a ∧ a ≤ 360) := by
  simp only [uas_vas_2_sfcwind_dir] at ha
  rcases get?_zipWith _ _ _ _ _ ha with ⟨w2, b, hw2, hb, hab⟩
  have hww : w2 = w := by rw [hw] at hw2; exact (Option.some.inj hw2).symm
  subst hww
  rcases List.mem_map.mp (List.get?_mem hb) with ⟨c, _, hcb⟩
  have hbrange : 1 / 2 < b ∧ b ≤ 360 := by
    rcases List.mem_map.mp (List.get?_mem (by exact hb)) with ⟨c2, hc2m, hc2⟩
    rcases List.mem_map.mp hc2m with ⟨a0, _, ha0⟩
    have hcr := qmod360_nonneg_lt (270 - a0)
    rw [ha0] at hcr
    by_cases hr : roundHalfEven c2 = 0
    · rw [← hc2, if_pos hr]
      norm_num
    · rw [← hc2, if_neg hr]
      refine ⟨?_, le_of_lt (lt_of_lt_of_le hcr.2 (by norm_num))⟩
      by_contra hle
      push_neg at hle
      exact hr (roundHalfEven_eq_zero hcr.1 hle)
  constructor
  · constructor
    · intro h0
      by_contra hlt
      rw [hab, if_neg hlt] at h0
      rw [h0] at hbrange
      have := hbrange.1
      norm_num at this
    · intro hlt
      rw [hab, if_pos hlt]
  · intro hlt
    rw [hab, if_neg hlt]
    exact ⟨le_of_lt hbrange.1, hbrange.2⟩

theorem sfcwind_direction_range_witness :
    ((360 : ℚ) = 0 ↔ (5 : ℚ) < mkRat 1 2) ∧
      (¬ (5 : ℚ) < mkRat 1 2 → 1 / 2 ≤ (360 : ℚ) ∧ (360 : ℚ) ≤ 360) :=
  sfcwind_direction_range [mkRat 3 10, 5] [90, 270] (mkRat 1 2) 1 5 360
    (by with_unfolding_all rfl) (by with_unfolding_all rfl)

end Xclim
